import Mathlib

/-!
Verification of the device-task dispatch layer of ElectroMag
(`src/GPGPU_Segment/src/Abstract_Functor.hpp`).

The repository ships only the class declaration of `AbstractFunctor` with
its documentation: the bodies of `Run`, `AsyncFunctor`, `AsyncAuxFunctor`
and every pure-virtual collaborator live outside the available sources.
Following the header's comments and the design document, the dispatch and
failure-remapping core is modelled here as

* a registry state (`RegState`) holding the idle-device queue, the
  failed-functor queue, their counts, the remap table and the completion
  record, exactly the private bookkeeping members of `AbstractFunctor`;
* a per-controller-thread execution function (`runThread`) and a
  sequential whole-run function (`RunModel`), each critical section of
  the remap mutex being one atomic step;
* an interleaved small-step system (`stepThread` / `Reach`) in which an
  arbitrary controller thread performs one lock-guarded step at a time,
  used for the invariants and ordering properties;
* models of the remaining contract points: `FailOnFunctor`,
  `GenerateParameterList` (as the canonical contiguous split),
  the auxiliary-monitor join and the orchestration phases;
* a transcription of the C++ member-access table of the class, for the
  encapsulation property.
-/

namespace ElectroMag

/-- Modelled from the spec: the aggregate result of `Run` — `Success`,
`PartialFailure(failedFunctorIndices)` (spelled `failedSome` here) or
`TotalFailure` (spelled `failedAll`). The implementation of `Run` is not
in the available sources. -/
inductive Status where
  | success : Status
  | failedSome : List Nat → Status
  | failedAll : Status
deriving DecidableEq, Repr

/-- Modelled from the spec: the remap bookkeeping registries of
`AbstractFunctor` (its private members `idleDevices`, `failedFunctors`,
`nIdle`, `nFailed`), together with the Remap Table, the record of
completed functor indices and the record of failed devices. `idleDevices`
and `failedFunctors` are FIFO queues: pushed at the back, claimed from
the front. -/
structure RegState where
  idleDevices : List Nat
  failedFunctors : List Nat
  nIdle : Nat
  nFailed : Nat
  remapTable : List (Nat × Nat)
  completed : List Nat
  failedDevices : List Nat
deriving DecidableEq, Repr

/-- The empty registries at the start of a run. -/
def initRegState : RegState :=
  { idleDevices := [], failedFunctors := [], nIdle := 0, nFailed := 0,
    remapTable := [], completed := [], failedDevices := [] }

/-- Modelled from the spec: one controller thread driving functor `i` on
device `d` to its terminal state (the body of `AsyncFunctor` is not in
the available sources). `ok i d` is the outcome of `MainFunctor i d`.

On success the thread's device joins the back of `idleDevices` and the
thread claims the first pending failed functor, if any, together with the
first idle device, and keeps running it on this same thread; with no
pending functor the thread terminates. On failure the functor joins
`failedFunctors` and the thread claims the first idle device `e`,
recording `i ↦ e` in the Remap Table and re-invoking `MainFunctor i e`
on this same thread; the append of `i` followed by its immediate claim
under the same lock leaves `failedFunctors` unchanged in that branch.
With no idle device the functor stays pending and the thread terminates.
Each branch is one critical section of the remap mutex. -/
def runThreadGo (ok : Nat → Nat → Bool) (i d : Nat) :
    List Nat → List Nat → Nat → Nat → List (Nat × Nat) → List Nat → List Nat →
    RegState
  | failed, idle, nIdle, nFailed, remap, completed, fdev =>
    if ok i d then
      match failed with
      | [] =>
        { idleDevices := idle ++ [d], failedFunctors := [], nIdle := nIdle + 1,
          nFailed := nFailed, remapTable := remap,
          completed := completed ++ [i], failedDevices := fdev }
      | j :: restF =>
        match idle with
        | [] =>
          runThreadGo ok j d restF [] nIdle (nFailed - 1)
            (remap ++ [(j, d)]) (completed ++ [i]) fdev
        | e :: es =>
          runThreadGo ok j e restF (es ++ [d]) nIdle (nFailed - 1)
            (remap ++ [(j, e)]) (completed ++ [i]) fdev
    else
      match idle with
      | [] =>
        { idleDevices := [], failedFunctors := failed ++ [i], nIdle := nIdle,
          nFailed := nFailed + 1, remapTable := remap,
          completed := completed, failedDevices := fdev ++ [d] }
      | e :: es =>
        runThreadGo ok i e failed es (nIdle - 1) nFailed
          (remap ++ [(i, e)]) completed (fdev ++ [d])
termination_by failed idle nI nF r c f => failed.length + idle.length
decreasing_by
  all_goals simp

/-- The controller thread of functor `i` on device `d`, applied to the
shared registries. -/
def runThread (ok : Nat → Nat → Bool) (i d : Nat) (s : RegState) : RegState :=
  runThreadGo ok i d s.failedFunctors s.idleDevices s.nIdle s.nFailed
    s.remapTable s.completed s.failedDevices

/-- Runs the controller threads of the listed functor indices, each
starting on its home device (`functorIndex == deviceIndex`). -/
def runThreads (ok : Nat → Nat → Bool) : List Nat → RegState → RegState
  | [], s => s
  | t :: ts, s => runThreads ok ts (runThread ok t t s)

/-- The registries after all `n` controller threads have terminated. -/
def finalState (ok : Nat → Nat → Bool) (n : Nat) : RegState :=
  runThreads ok (List.range n) initRegState

/-- Modelled from the spec: the aggregate status computed at `Done` —
success when no functor stayed failed, total failure when zero functors
completed, otherwise partial failure carrying the failed functor set. -/
def aggregateStatus (s : RegState) : Status :=
  if s.failedFunctors = [] then Status.success
  else if s.completed = [] then Status.failedAll
  else Status.failedSome s.failedFunctors

/-- Modelled from the spec: the caller-facing entry point
`Run(dataset, nDevices) → Status`; its body is not in the available
sources. -/
def RunModel (ok : Nat → Nat → Bool) (n : Nat) : Status :=
  aggregateStatus (finalState ok n)

/-! ### Interleaved small-step system

The same controller-thread logic, one critical section at a time, with an
arbitrary interleaving of the controller threads. -/

/-- The state of one controller thread: still running its functor on some
device, terminated after its functor completed, or terminated with its
functor left pending in `failedFunctors`. -/
inductive TStatus where
  | running : Nat → Nat → TStatus
  | done : TStatus
  | pending : TStatus
deriving DecidableEq, Repr

/-- A configuration of the interleaved system: the shared registries plus
the state of every controller thread (thread `t` is entry `t`). -/
structure Config where
  regs : RegState
  threads : List TStatus
deriving DecidableEq, Repr

/-- The functor index run by a thread, when it is running. -/
def funOf : TStatus → Option Nat
  | TStatus.running i _ => some i
  | _ => none

/-- The device held by a thread, when it is running. -/
def devOf : TStatus → Option Nat
  | TStatus.running _ d => some d
  | _ => none

/-- The devices currently held (busy) by running controller threads. -/
def runningDevices (c : Config) : List Nat :=
  c.threads.filterMap devOf

/-- The functor indices currently being run by controller threads. -/
def runningFunctors (c : Config) : List Nat :=
  c.threads.filterMap funOf

/-- Modelled from the spec: one lock-guarded step of controller thread
`t`, whose pending `MainFunctor` call returned `res` (the bodies of
`AsyncFunctor` and the remap critical sections are not in the available
sources). The cases are those of `runThread`, taken one critical section
at a time; a step of a terminated or nonexistent thread is a no-op. -/
def stepThread (res : Bool) (t : Nat) (c : Config) : Config :=
  match c.threads[t]? with
  | some (TStatus.running i d) =>
    if res then
      match c.regs.failedFunctors with
      | [] =>
        { regs :=
            { c.regs with idleDevices := c.regs.idleDevices ++ [d],
                          nIdle := c.regs.nIdle + 1,
                          completed := c.regs.completed ++ [i] },
          threads := c.threads.set t TStatus.done }
      | j :: restF =>
        match c.regs.idleDevices with
        | [] =>
          { regs :=
              { c.regs with failedFunctors := restF, nFailed := c.regs.nFailed - 1,
                            remapTable := c.regs.remapTable ++ [(j, d)],
                            completed := c.regs.completed ++ [i] },
            threads := c.threads.set t (TStatus.running j d) }
        | e :: es =>
          { regs :=
              { c.regs with idleDevices := es ++ [d], failedFunctors := restF,
                            nFailed := c.regs.nFailed - 1,
                            remapTable := c.regs.remapTable ++ [(j, e)],
                            completed := c.regs.completed ++ [i] },
            threads := c.threads.set t (TStatus.running j e) }
    else
      match c.regs.idleDevices with
      | [] =>
        { regs :=
            { c.regs with failedFunctors := c.regs.failedFunctors ++ [i],
                          nFailed := c.regs.nFailed + 1,
                          failedDevices := c.regs.failedDevices ++ [d] },
          threads := c.threads.set t TStatus.pending }
      | e :: es =>
        { regs :=
            { c.regs with idleDevices := es, nIdle := c.regs.nIdle - 1,
                          remapTable := c.regs.remapTable ++ [(i, e)],
                          failedDevices := c.regs.failedDevices ++ [d] },
          threads := c.threads.set t (TStatus.running i e) }
  | _ => c

/-- The initial configuration: `n` controller threads, thread `i` running
functor `i` on device `i`, all registries empty. -/
def initConfig (n : Nat) : Config :=
  { regs := initRegState,
    threads := (List.range n).map (fun i => TStatus.running i i) }

/-- The configurations reachable by interleaved lock-guarded steps of the
controller threads, with arbitrary `MainFunctor` outcomes. -/
inductive Reach (n : Nat) : Config → Prop where
  | init : Reach n (initConfig n)
  | step {c : Config} (res : Bool) (t : Nat) :
      Reach n c → Reach n (stepThread res t c)

/-! ### Auxiliary monitor, orchestration phases -/

/-- How the auxiliary monitor thread ends: it returned on its own before
the join, or it was forcibly terminated. -/
inductive AuxOutcome where
  | returned : AuxOutcome
  | killed : AuxOutcome
deriving DecidableEq, Repr

/-- Modelled from the spec: the treatment of the auxiliary monitor thread
once every main controller thread is terminal (the body of
`AsyncAuxFunctor` and the join logic are not in the available sources).
`auxReturned` says whether `AuxFunctor` had returned by that time; if it
had not, its thread is killed rather than awaited. -/
def joinAux (auxReturned : Bool) : AuxOutcome :=
  if auxReturned then AuxOutcome.returned else AuxOutcome.killed

/-- Modelled from the spec: `Run` together with the auxiliary monitor —
the final status is computed from the main-work registries alone, and the
monitor is joined or killed according to `joinAux`. -/
def RunWithAux (ok : Nat → Nat → Bool) (n : Nat) (auxReturned : Bool) :
    Status × AuxOutcome :=
  (RunModel ok n, joinAux auxReturned)

/-- The observable phase events of one orchestrated run. -/
inductive PhaseEvent where
  | bindData : PhaseEvent
  | allocateResources : PhaseEvent
  | generateParameterList : PhaseEvent
  | dispatch : PhaseEvent
  | joinThreads : PhaseEvent
  | postRun : PhaseEvent
deriving DecidableEq, Repr

/-- Modelled from the spec: the orchestrator's state machine
`Init → Partitioned → Dispatching → Joined → PostRun → Done`
(the body of `Run` is not in the available sources). -/
inductive OPhase where
  | initP : OPhase
  | partitionedP : OPhase
  | dispatchingP : OPhase
  | joinedP : OPhase
  | postRunP : OPhase
  | doneP : OPhase
deriving DecidableEq, Repr

/-- The successor phase on the success path of the orchestrator. -/
def orchNext : OPhase → OPhase
  | OPhase.initP => OPhase.partitionedP
  | OPhase.partitionedP => OPhase.dispatchingP
  | OPhase.dispatchingP => OPhase.joinedP
  | OPhase.joinedP => OPhase.postRunP
  | OPhase.postRunP => OPhase.doneP
  | OPhase.doneP => OPhase.doneP

/-- The events performed in each orchestrator phase: `Init` calls
`BindData` and `AllocateResources`, `Partitioned` calls
`GenerateParameterList`, `Dispatching` launches the worker threads and
the monitor, `Joined` joins all controller threads, `PostRun` calls
`PostRun`, `Done` only returns. -/
def phaseEventsOf : OPhase → List PhaseEvent
  | OPhase.initP => [PhaseEvent.bindData, PhaseEvent.allocateResources]
  | OPhase.partitionedP => [PhaseEvent.generateParameterList]
  | OPhase.dispatchingP => [PhaseEvent.dispatch]
  | OPhase.joinedP => [PhaseEvent.joinThreads]
  | OPhase.postRunP => [PhaseEvent.postRun]
  | OPhase.doneP => []

/-- The event trace of `k` phases of the orchestrator from phase `p`. -/
def orchTrace : Nat → OPhase → List PhaseEvent
  | 0, _ => []
  | k + 1, p => phaseEventsOf p ++ orchTrace k (orchNext p)

/-- Modelled from the spec: the full success-path orchestration of `Run`,
returning the trace of phase events alongside the aggregate status. -/
def RunOrchestrated (ok : Nat → Nat → Bool) (n : Nat) :
    List PhaseEvent × Status :=
  (orchTrace 6 OPhase.initP, aggregateStatus (finalState ok n))

/-! ### Error queries, partitioning, member access -/

/-- Modelled from the spec: the error state a device implementation keeps
for `FailOnFunctor` — the number of functors and, for each in-range
functor, whether the most recent operation on it failed (the
implementations of the pure-virtual `FailOnFunctor` are not in the
available sources). -/
structure FunctorErrors where
  nFunctors : Nat
  opFailed : Nat → Bool

/-- Modelled from the spec: `FailOnFunctor(functorIndex)` — true when the
most recent operation on the given functor failed, and also true for an
out-of-bounds functor index. -/
def FailOnFunctor (e : FunctorErrors) (functorIndex : Nat) : Bool :=
  if e.nFunctors ≤ functorIndex then true else e.opFailed functorIndex

/-- The contiguous index interval `[a, b)` of a dataset. -/
def interval (a b : Nat) : List Nat :=
  (List.range (b - a)).map (fun x => a + x)

/-- The first dataset index of chunk `i` when a dataset of `total`
elements is split among `n` devices. -/
def chunkStart (n total i : Nat) : Nat :=
  i * total / n

/-- Modelled from the spec: `GenerateParameterList(nDevices)` as the
canonical contiguous split policy (the implementations of the
pure-virtual `GenerateParameterList` are not in the available sources):
the dataset indices `0, …, total - 1` are split into `n` consecutive
chunks of near-equal size. -/
def GenerateParameterList (n total : Nat) : List (List Nat) :=
  (List.range n).map
    (fun i => interval (chunkStart n total i) (chunkStart n total (i + 1)))

/-- A C++ member access specifier, as far as this header uses them. -/
inductive CppAccess where
  | pub : CppAccess
  | priv : CppAccess
deriving DecidableEq, Repr

/-- One declared member of a C++ class: its name and access specifier. -/
structure CppMember where
  name : String
  access : CppAccess
deriving DecidableEq, Repr

/-- The member table of `class AbstractFunctor`, transcribed from
`src/GPGPU_Segment/src/Abstract_Functor.hpp`: the members of the leading
`public:` section followed by the members of the `private:` section. -/
def abstractFunctorMembers : List CppMember :=
  [{ name := "AbstractFunctor", access := CppAccess.pub },
   { name := "AbstractFunctorParams", access := CppAccess.pub },
   { name := "Run", access := CppAccess.pub },
   { name := "BindData", access := CppAccess.pub },
   { name := "AllocateResources", access := CppAccess.pub },
   { name := "ReleaseResources", access := CppAccess.pub },
   { name := "GenerateParameterList", access := CppAccess.pub },
   { name := "MainFunctor", access := CppAccess.pub },
   { name := "AuxFunctor", access := CppAccess.pub },
   { name := "PostRun", access := CppAccess.pub },
   { name := "Fail", access := CppAccess.pub },
   { name := "FailOnFunctor", access := CppAccess.pub },
   { name := "AsyncParameters", access := CppAccess.priv },
   { name := "hRemapMutex", access := CppAccess.priv },
   { name := "idleDevices", access := CppAccess.priv },
   { name := "failedFunctors", access := CppAccess.priv },
   { name := "nFailed", access := CppAccess.priv },
   { name := "nIdle", access := CppAccess.priv },
   { name := "AsyncFunctor", access := CppAccess.priv },
   { name := "AsyncAuxFunctor", access := CppAccess.priv }]

/-- True when every member of the class carrying this name is private
and the name is indeed a declared member. -/
def memberIsPrivate (nm : String) : Bool :=
  abstractFunctorMembers.all
    (fun m => m.name ≠ nm || m.access == CppAccess.priv)
  && abstractFunctorMembers.any (fun m => m.name == nm)

/-! ### Theorems -/

/-- A controller thread whose `MainFunctor` calls always succeed, run in
a state with no pending failed functor, completes its functor at once:
its device joins the idle queue and the thread terminates. -/
theorem runThread_allOk {ok : Nat → Nat → Bool}
    (hok : ∀ i d, ok i d = true) (i d : Nat) (s : RegState)
    (hf : s.failedFunctors = []) :
    runThread ok i d s =
      { s with idleDevices := s.idleDevices ++ [d], nIdle := s.nIdle + 1,
               completed := s.completed ++ [i] } := by
  rw [runThread, hf, runThreadGo.eq_def]
  simp [hok]

/-- Running any list of all-succeeding controller threads from a state
with no pending failed functor appends exactly those functor indices to
the completion record and leaves the failed queue empty. -/
theorem runThreads_allOk {ok : Nat → Nat → Bool}
    (hok : ∀ i d, ok i d = true) :
    ∀ (ts : List Nat) (s : RegState), s.failedFunctors = [] →
      (runThreads ok ts s).completed = s.completed ++ ts ∧
      (runThreads ok ts s).failedFunctors = [] := by
  intro ts
  induction ts with
  | nil => intro s hf; simp [runThreads, hf]
  | cons t ts ih =>
    intro s hf
    rw [runThreads, runThread_allOk hok t t s hf]
    have h := ih { s with idleDevices := s.idleDevices ++ [t], nIdle := s.nIdle + 1,
                          completed := s.completed ++ [t] } hf
    simpa using h

/-- C2: for every `nDevices ≥ 1`, if every `MainFunctor` call succeeds
on its first attempt, `Run` returns `Success` and every functor index in
`0 .. nDevices - 1` reaches the completed state exactly once. -/
theorem c2_all_success (ok : Nat → Nat → Bool) (n : Nat) (hn : 1 ≤ n)
    (hok : ∀ i d, ok i d = true) :
    RunModel ok n = Status.success ∧
    (finalState ok n).completed = List.range n ∧
    (∀ i, i < n → (finalState ok n).completed.count i = 1) := by
  have h := runThreads_allOk hok (List.range n) initRegState rfl
  have hc : (finalState ok n).completed = List.range n := by
    simpa [finalState, initRegState] using h.1
  refine ⟨?_, hc, ?_⟩
  · simp [RunModel, aggregateStatus, finalState, h.2]
  · intro i hi
    rw [hc]
    exact List.count_eq_one_of_mem (List.nodup_range n) (List.mem_range.mpr hi)

/-- Witness for C2 at `nDevices = 3` with the always-succeeding oracle. -/
theorem c2_all_success_witness :
    1 ≤ 3 ∧
    (RunModel (fun _ _ => true) 3 = Status.success ∧
     (finalState (fun _ _ => true) 3).completed = List.range 3 ∧
     (∀ i, i < 3 → (finalState (fun _ _ => true) 3).completed.count i = 1)) :=
  ⟨by decide, c2_all_success (fun _ _ => true) 3 (by decide) (fun _ _ => rfl)⟩

/-- Work conservation of one controller thread: running a thread for
functor `i` adds exactly `i` to the combined record of completed and
pending-failed functors — no functor is duplicated or silently dropped
by the remap loop. -/
theorem runThreadGo_cover (ok : Nat → Nat → Bool) :
    ∀ (i d : Nat) (failed idle : List Nat) (nI nF : Nat)
      (remap : List (Nat × Nat)) (completed fdev : List Nat),
      ((runThreadGo ok i d failed idle nI nF remap completed fdev).completed
          : Multiset Nat)
        + ((runThreadGo ok i d failed idle nI nF remap completed fdev).failedFunctors
          : Multiset Nat)
      = (completed : Multiset Nat) + (failed : Multiset Nat) + {i} := by
  intro i d failed idle nI nF remap completed fdev
  induction i, d, failed, idle, nI, nF, remap, completed, fdev
    using runThreadGo.induct ok with
  | case1 i d idle nI nF remap completed fdev hok =>
    rw [runThreadGo.eq_def]
    simp only [hok, if_true]
    simp only [← Multiset.coe_add, Multiset.coe_singleton]
    abel
  | case2 i d nI nF remap completed fdev hok j restF ih =>
    rw [runThreadGo.eq_def]
    simp only [hok, if_true]
    rw [ih]
    simp only [← Multiset.coe_add, ← Multiset.cons_coe, ← Multiset.singleton_add,
      Multiset.coe_singleton]
    abel
  | case3 i d nI nF remap completed fdev hok j restF e es ih =>
    rw [runThreadGo.eq_def]
    simp only [hok, if_true]
    rw [ih]
    simp only [← Multiset.coe_add, ← Multiset.cons_coe, ← Multiset.singleton_add,
      Multiset.coe_singleton]
    abel
  | case4 i d failed nI nF remap completed fdev hok =>
    rw [runThreadGo.eq_def]
    simp only [hok, Bool.false_eq_true, if_false]
    simp only [← Multiset.coe_add, Multiset.coe_singleton]
    abel
  | case5 i d failed nI nF remap completed fdev hok e es ih =>
    rw [runThreadGo.eq_def]
    simp only [hok, Bool.false_eq_true, if_false]
    rw [ih]

/-- Work conservation of `runThread`, stated on registry states. -/
theorem runThread_cover (ok : Nat → Nat → Bool) (i d : Nat) (s : RegState) :
    ((runThread ok i d s).completed : Multiset Nat)
      + ((runThread ok i d s).failedFunctors : Multiset Nat)
    = (s.completed : Multiset Nat) + (s.failedFunctors : Multiset Nat) + {i} :=
  runThreadGo_cover ok i d s.failedFunctors s.idleDevices s.nIdle s.nFailed
    s.remapTable s.completed s.failedDevices

/-- Work conservation of a whole run: the functor indices driven by the
controller threads all end up either completed or pending-failed. -/
theorem runThreads_cover (ok : Nat → Nat → Bool) :
    ∀ (ts : List Nat) (s : RegState),
      ((runThreads ok ts s).completed : Multiset Nat)
        + ((runThreads ok ts s).failedFunctors : Multiset Nat)
      = (s.completed : Multiset Nat) + (s.failedFunctors : Multiset Nat)
        + (ts : Multiset Nat) := by
  intro ts
  induction ts with
  | nil => intro s; simp [runThreads]
  | cons t ts ih =>
    intro s
    rw [runThreads, ih (runThread ok t t s), runThread_cover]
    simp only [← Multiset.cons_coe, ← Multiset.singleton_add]
    abel

/-- After a full run over `n` devices, completed plus pending-failed
functor indices are exactly `0 .. n - 1`, each once. -/
theorem finalState_cover (ok : Nat → Nat → Bool) (n : Nat) :
    ((finalState ok n).completed : Multiset Nat)
      + ((finalState ok n).failedFunctors : Multiset Nat)
    = (List.range n : List Nat) := by
  have h := runThreads_cover ok (List.range n) initRegState
  simpa [finalState, initRegState] using h

/-- C3: the core's caller-facing entry point returns a `Status` that is
exactly one of `Success`, `PartialFailure(failedFunctorIndices)` or
`TotalFailure`, and `TotalFailure` is returned exactly when zero functors
completed. -/
theorem c3_run_status (ok : Nat → Nat → Bool) (n : Nat) (hn : 1 ≤ n) :
    (∀ st : Status, st = Status.success ∨ st = Status.failedAll ∨
       ∃ fs, st = Status.failedSome fs) ∧
    (RunModel ok n = Status.failedAll ↔ (finalState ok n).completed = []) := by
  constructor
  · intro st
    cases st with
    | success => exact Or.inl rfl
    | failedSome fs => exact Or.inr (Or.inr ⟨fs, rfl⟩)
    | failedAll => exact Or.inr (Or.inl rfl)
  · have hcov := finalState_cover ok n
    constructor
    · intro h
      by_cases hf : (finalState ok n).failedFunctors = []
      · simp [RunModel, aggregateStatus, hf] at h
      · by_cases hc : (finalState ok n).completed = []
        · exact hc
        · simp [RunModel, aggregateStatus, hf, hc] at h
    · intro hc
      have hf : (finalState ok n).failedFunctors ≠ [] := by
        intro hf
        rw [hc, hf] at hcov
        have hcard := congrArg Multiset.card hcov
        simp at hcard
        omega
      simp [RunModel, aggregateStatus, hf, hc]

/-- Witness for C3 at `nDevices = 1` with the always-failing oracle:
the run returns `TotalFailure` and indeed zero functors completed. -/
theorem c3_run_status_witness :
    1 ≤ 1 ∧
    ((∀ st : Status, st = Status.success ∨ st = Status.failedAll ∨
        ∃ fs, st = Status.failedSome fs) ∧
     (RunModel (fun _ _ => false) 1 = Status.failedAll ↔
        (finalState (fun _ _ => false) 1).completed = [])) :=
  ⟨by decide, c3_run_status (fun _ _ => false) 1 (by decide)⟩

/-- Membership in a contiguous interval of dataset indices. -/
theorem mem_interval {a b x : Nat} : x ∈ interval a b ↔ a ≤ x ∧ x < b := by
  simp only [interval, List.mem_map, List.mem_range]
  constructor
  · rintro ⟨y, hy, rfl⟩; omega
  · intro h; exact ⟨x - a, by omega, by omega⟩

/-- Two adjacent contiguous intervals concatenate to one interval. -/
theorem interval_append {a b c : Nat} (hab : a ≤ b) (hbc : b ≤ c) :
    interval a b ++ interval b c = interval a c := by
  simp only [interval]
  rw [show c - a = (b - a) + (c - b) by omega, List.range_add,
    List.map_append, List.map_map]
  have hfun : ((fun x => a + x) ∘ fun x => b - a + x) = fun x : Nat => b + x := by
    funext x
    simp only [Function.comp_apply]
    omega
  rw [hfun]

/-- Chunk start positions are monotone in the chunk index. -/
theorem chunkStart_mono (n total : Nat) {i j : Nat} (h : i ≤ j) :
    chunkStart n total i ≤ chunkStart n total j :=
  Nat.div_le_div_right (Nat.mul_le_mul_right total h)

/-- The first `k` chunks of the split cover the dataset prefix up to the
start of chunk `k`. -/
theorem chunks_flatten (n total : Nat) :
    ∀ k : Nat,
      ((List.range k).map
        (fun i => interval (chunkStart n total i) (chunkStart n total (i + 1)))).flatten
      = interval 0 (chunkStart n total k) := by
  intro k
  induction k with
  | zero => simp [chunkStart, interval]
  | succ k ih =>
    rw [List.range_succ, List.map_append, List.flatten_append, ih]
    simp only [List.map_cons, List.map_nil, List.flatten_cons, List.flatten_nil,
      List.append_nil]
    exact interval_append (Nat.zero_le _) (chunkStart_mono n total (Nat.le_succ k))

/-- C9: `GenerateParameterList(nDevices)` on a bound dataset produces
exactly `nDevices` partitions that are pairwise non-overlapping and whose
union covers the full dataset (all indices `0 .. total - 1`). -/
theorem c9_generateParameterList (n total : Nat) (hn : 1 ≤ n) :
    (GenerateParameterList n total).length = n ∧
    List.Pairwise (fun l1 l2 => ∀ x, x ∈ l1 → x ∉ l2)
      (GenerateParameterList n total) ∧
    (GenerateParameterList n total).flatten = List.range total := by
  refine ⟨by simp [GenerateParameterList], ?_, ?_⟩
  · rw [GenerateParameterList, List.pairwise_map]
    refine (List.pairwise_lt_range n).imp ?_
    intro i j hij x hxi hxj
    have h1 := (mem_interval.mp hxi).2
    have h2 := (mem_interval.mp hxj).1
    have h3 : chunkStart n total (i + 1) ≤ chunkStart n total j :=
      chunkStart_mono n total hij
    omega
  · rw [GenerateParameterList, chunks_flatten]
    have hlast : chunkStart n total n = total := by
      rw [chunkStart]
      exact Nat.mul_div_cancel_left total hn
    rw [hlast]
    simp [interval]

/-- Witness for C9 at `nDevices = 3` over a dataset of 7 elements. -/
theorem c9_generateParameterList_witness :
    1 ≤ 3 ∧
    ((GenerateParameterList 3 7).length = 3 ∧
     List.Pairwise (fun l1 l2 => ∀ x, x ∈ l1 → x ∉ l2)
       (GenerateParameterList 3 7) ∧
     (GenerateParameterList 3 7).flatten = List.range 7) :=
  ⟨by decide, c9_generateParameterList 3 7 (by decide)⟩

/-- C1: when `MainFunctor` fails for functor `i` on device `d` and an
idle device `d'` is available (at the head of the FIFO queue), the
remapper removes `d'` from `idleDevices`, records `i ↦ d'` in the Remap
Table, and re-invokes `MainFunctor(i, d')` on that first idle device; the
re-invocation is performed by the same controller thread `t` that
detected the failure — entry `t` of the unchanged-length thread list is
updated in place and no thread is spawned. -/
theorem c1_remap_same_thread (c : Config) (t i d d' : Nat) (rest : List Nat)
    (hth : c.threads[t]? = some (TStatus.running i d))
    (hidle : c.regs.idleDevices = d' :: rest) :
    (stepThread false t c).regs.idleDevices = rest ∧
    (stepThread false t c).regs.remapTable = c.regs.remapTable ++ [(i, d')] ∧
    (stepThread false t c).threads = c.threads.set t (TStatus.running i d') ∧
    (stepThread false t c).threads.length = c.threads.length := by
  simp [stepThread, hth, hidle]

/-- Witness for C1 at a concrete two-thread configuration. -/
theorem c1_remap_same_thread_witness :
    (stepThread false 0
      { regs := { initRegState with idleDevices := [1], nIdle := 1 },
        threads := [TStatus.running 0 0] }).regs.idleDevices = [] ∧
    (stepThread false 0
      { regs := { initRegState with idleDevices := [1], nIdle := 1 },
        threads := [TStatus.running 0 0] }).regs.remapTable = [] ++ [(0, 1)] ∧
    (stepThread false 0
      { regs := { initRegState with idleDevices := [1], nIdle := 1 },
        threads := [TStatus.running 0 0] }).threads
      = [TStatus.running 0 0].set 0 (TStatus.running 0 1) ∧
    (stepThread false 0
      { regs := { initRegState with idleDevices := [1], nIdle := 1 },
        threads := [TStatus.running 0 0] }).threads.length
      = [TStatus.running 0 0].length :=
  c1_remap_same_thread
    { regs := { initRegState with idleDevices := [1], nIdle := 1 },
      threads := [TStatus.running 0 0] }
    0 0 0 1 [] (by decide) (by decide)

/-- C5: FIFO tie-break — with the idle queue holding `d1` then `d2`, two
distinct controller threads whose functors both fail before either remap
completes claim the idle devices in queue order: the first-failing
functor `i1` is remapped to `d1` and the second-failing functor `i2` to
`d2`, in that order in the Remap Table. -/
theorem c5_fifo_idle_claim (c : Config) (t1 t2 i1 e1 i2 e2 d1 d2 : Nat)
    (rest : List Nat) (hne : t1 ≠ t2)
    (h1 : c.threads[t1]? = some (TStatus.running i1 e1))
    (h2 : c.threads[t2]? = some (TStatus.running i2 e2))
    (hidle : c.regs.idleDevices = d1 :: d2 :: rest) :
    (stepThread false t1 c).regs.remapTable = c.regs.remapTable ++ [(i1, d1)] ∧
    (stepThread false t2 (stepThread false t1 c)).regs.remapTable
      = c.regs.remapTable ++ [(i1, d1)] ++ [(i2, d2)] := by
  have hstep1 :
      (stepThread false t1 c).regs.idleDevices = d2 :: rest ∧
      (stepThread false t1 c).regs.remapTable = c.regs.remapTable ++ [(i1, d1)] ∧
      (stepThread false t1 c).threads = c.threads.set t1 (TStatus.running i1 d1) ∧
      (stepThread false t1 c).threads.length = c.threads.length :=
    c1_remap_same_thread c t1 i1 e1 d1 (d2 :: rest) h1 hidle
  have h2' : (stepThread false t1 c).threads[t2]? = some (TStatus.running i2 e2) := by
    rw [hstep1.2.2.1, List.getElem?_set_ne hne]
    exact h2
  have hstep2 :=
    c1_remap_same_thread (stepThread false t1 c) t2 i2 e2 d2 rest h2' hstep1.1
  exact ⟨hstep1.2.1, by rw [hstep2.2.1, hstep1.2.1]⟩

/-- Witness for C5 at a concrete configuration: two running threads, idle
queue `[5, 6]`. -/
theorem c5_fifo_idle_claim_witness :
    (stepThread false 0
      { regs := { initRegState with idleDevices := [5, 6], nIdle := 2 },
        threads := [TStatus.running 0 0, TStatus.running 1 1] }).regs.remapTable
      = [] ++ [(0, 5)] ∧
    (stepThread false 1 (stepThread false 0
      { regs := { initRegState with idleDevices := [5, 6], nIdle := 2 },
        threads := [TStatus.running 0 0, TStatus.running 1 1] })).regs.remapTable
      = [] ++ [(0, 5)] ++ [(1, 6)] :=
  c5_fifo_idle_claim
    { regs := { initRegState with idleDevices := [5, 6], nIdle := 2 },
      threads := [TStatus.running 0 0, TStatus.running 1 1] }
    0 1 0 0 1 1 5 6 [] (by decide) (by decide) (by decide) (by decide)

/-- Decomposition of a list at a valid index. -/
theorem list_take_getElem_drop {α : Type} (l : List α) (t : Nat)
    (ht : t < l.length) :
    l = l.take t ++ l[t] :: l.drop (t + 1) := by
  conv_lhs => rw [← List.take_append_drop t l]
  rw [List.drop_eq_getElem_cons ht]

/-- The devices of the freshly dispatched thread pool are its indices. -/
theorem filterMap_devOf_running (l : List Nat) :
    (l.map (fun i => TStatus.running i i)).filterMap devOf = l := by
  induction l with
  | nil => rfl
  | cons a l ih => simp [devOf, ih]

/-- The functors of the freshly dispatched thread pool are its indices. -/
theorem filterMap_funOf_running (l : List Nat) :
    (l.map (fun i => TStatus.running i i)).filterMap funOf = l := by
  induction l with
  | nil => rfl
  | cons a l ih => simp [funOf, ih]

/-- The conservation invariant of the interleaved system: in every
reachable configuration, the busy devices, the idle devices and the
failed devices together are exactly the `n` device indices, each once;
the running functors, the pending failed functors and the completed
functors together are exactly the `n` functor indices, each once; and
the counts `nIdle` and `nFailed` equal the lengths of their queues. -/
theorem reach_registry_inv {n : Nat} {c : Config} (h : Reach n c) :
    (runningDevices c : Multiset Nat) + (c.regs.idleDevices : Multiset Nat)
        + (c.regs.failedDevices : Multiset Nat) = (List.range n : List Nat) ∧
    (runningFunctors c : Multiset Nat) + (c.regs.failedFunctors : Multiset Nat)
        + (c.regs.completed : Multiset Nat) = (List.range n : List Nat) ∧
    c.regs.nIdle = c.regs.idleDevices.length ∧
    c.regs.nFailed = c.regs.failedFunctors.length := by
  induction h with
  | init =>
    have hdev : runningDevices (initConfig n) = List.range n := by
      rw [runningDevices, initConfig]
      exact filterMap_devOf_running _
    have hfun : runningFunctors (initConfig n) = List.range n := by
      rw [runningFunctors, initConfig]
      exact filterMap_funOf_running _
    refine ⟨?_, ?_, rfl, rfl⟩
    · rw [hdev]
      simp [initConfig, initRegState]
    · rw [hfun]
      simp [initConfig, initRegState]
  | step res t hr ih =>
    rename_i c
    obtain ⟨ih1, ih2, ih3, ih4⟩ := ih
    rcases hth : c.threads[t]? with _ | st
    · simp only [stepThread, hth]
      exact ⟨ih1, ih2, ih3, ih4⟩
    · cases st with
      | done =>
        simp only [stepThread, hth]
        exact ⟨ih1, ih2, ih3, ih4⟩
      | pending =>
        simp only [stepThread, hth]
        exact ⟨ih1, ih2, ih3, ih4⟩
      | running i d =>
        obtain ⟨ht, hget⟩ := List.getElem?_eq_some.mp hth
        have hdec : c.threads
            = c.threads.take t ++ TStatus.running i d :: c.threads.drop (t + 1) := by
          conv_lhs => rw [list_take_getElem_drop c.threads t ht]
          rw [hget]
        have hset : ∀ v : TStatus, c.threads.set t v
            = c.threads.take t ++ v :: c.threads.drop (t + 1) := by
          intro v
          rw [List.set_eq_take_append_cons_drop, if_pos ht]
        have hrdev : runningDevices c
            = (c.threads.take t).filterMap devOf
              ++ d :: (c.threads.drop (t + 1)).filterMap devOf := by
          rw [runningDevices]
          conv_lhs => rw [hdec]
          simp [List.filterMap_append, List.filterMap_cons, devOf]
        have hrfun : runningFunctors c
            = (c.threads.take t).filterMap funOf
              ++ i :: (c.threads.drop (t + 1)).filterMap funOf := by
          rw [runningFunctors]
          conv_lhs => rw [hdec]
          simp [List.filterMap_append, List.filterMap_cons, funOf]
        rw [hrdev] at ih1
        rw [hrfun] at ih2
        rcases res with _ | _
        · -- MainFunctor failed
          rcases hid : c.regs.idleDevices with _ | ⟨e, es⟩
          · -- no idle device: functor pends, thread terminates
            simp only [stepThread, hth, Bool.false_eq_true, if_false, hid]
            rw [hid] at ih1 ih3
            refine ⟨?_, ?_, by simpa using ih3, by simp [ih4]⟩
            · rw [runningDevices, hset, List.filterMap_append, List.filterMap_cons]
              rw [← ih1]
              simp only [devOf, ← Multiset.coe_add, ← Multiset.cons_coe,
                ← Multiset.singleton_add, Multiset.coe_singleton]
              try abel
            · rw [runningFunctors, hset, List.filterMap_append, List.filterMap_cons]
              rw [← ih2]
              simp only [funOf, ← Multiset.coe_add, ← Multiset.cons_coe,
                ← Multiset.singleton_add, Multiset.coe_singleton]
              try abel
          · -- idle device e available: remap i to e on the same thread
            simp only [stepThread, hth, Bool.false_eq_true, if_false, hid]
            rw [hid] at ih1 ih3
            refine ⟨?_, ?_, by rw [ih3]; simp, by simpa using ih4⟩
            · rw [runningDevices, hset, List.filterMap_append, List.filterMap_cons]
              rw [← ih1]
              simp only [devOf, ← Multiset.coe_add, ← Multiset.cons_coe,
                ← Multiset.singleton_add, Multiset.coe_singleton]
              try abel
            · rw [runningFunctors, hset, List.filterMap_append, List.filterMap_cons]
              rw [← ih2]
              simp only [funOf, ← Multiset.coe_add, ← Multiset.cons_coe,
                ← Multiset.singleton_add, Multiset.coe_singleton]
              try abel
        · -- MainFunctor succeeded
          rcases hff : c.regs.failedFunctors with _ | ⟨j, restF⟩
          · -- no pending failed functor: thread done, device goes idle
            simp only [stepThread, hth, if_true, hff]
            rw [hff] at ih2 ih4
            refine ⟨?_, ?_, by simp [ih3], by simpa using ih4⟩
            · rw [runningDevices, hset, List.filterMap_append, List.filterMap_cons]
              rw [← ih1]
              simp only [devOf, ← Multiset.coe_add, ← Multiset.cons_coe,
                ← Multiset.singleton_add, Multiset.coe_singleton]
              try abel
            · rw [runningFunctors, hset, List.filterMap_append, List.filterMap_cons]
              rw [← ih2]
              simp only [funOf, ← Multiset.coe_add, ← Multiset.cons_coe,
                ← Multiset.singleton_add, Multiset.coe_singleton]
              try abel
          · rcases hid : c.regs.idleDevices with _ | ⟨e, es⟩
            · -- pending functor j claims this thread's device d
              simp only [stepThread, hth, if_true, hff, hid]
              rw [hff] at ih2 ih4
              rw [hid] at ih1 ih3
              refine ⟨?_, ?_, by simpa using ih3, by rw [ih4]; simp⟩
              · rw [runningDevices, hset, List.filterMap_append, List.filterMap_cons]
                rw [← ih1]
                simp only [devOf, ← Multiset.coe_add, ← Multiset.cons_coe,
                  ← Multiset.singleton_add, Multiset.coe_singleton]
                try abel
              · rw [runningFunctors, hset, List.filterMap_append, List.filterMap_cons]
                rw [← ih2]
                simp only [funOf, ← Multiset.coe_add, ← Multiset.cons_coe,
                  ← Multiset.singleton_add, Multiset.coe_singleton]
                try abel
            · -- pending functor j claims the first idle device e
              simp only [stepThread, hth, if_true, hff, hid]
              rw [hff] at ih2 ih4
              rw [hid] at ih1 ih3
              refine ⟨?_, ?_, by rw [ih3]; simp, by rw [ih4]; simp⟩
              · rw [runningDevices, hset, List.filterMap_append, List.filterMap_cons]
                rw [← ih1]
                simp only [devOf, ← Multiset.coe_add, ← Multiset.cons_coe,
                  ← Multiset.singleton_add, Multiset.coe_singleton]
                try abel
              · rw [runningFunctors, hset, List.filterMap_append, List.filterMap_cons]
                rw [← ih2]
                simp only [funOf, ← Multiset.coe_add, ← Multiset.cons_coe,
                  ← Multiset.singleton_add, Multiset.coe_singleton]
                try abel

/-- C4: registry consistency in every reachable state — `nIdle` and
`nFailed` equal the lengths of `idleDevices` and `failedFunctors`, never
exceed `nDevices` (and, as naturals, are never negative); a device index
never appears in `idleDevices` more than once at the same instant and
never appears there while it is busy on a running controller thread.
Every mutation of the registries is one `stepThread` transition, the
model of one critical section of the remap mutex. -/
theorem c4_registry_consistency {n : Nat} {c : Config} (h : Reach n c) :
    c.regs.nIdle = c.regs.idleDevices.length ∧
    c.regs.nFailed = c.regs.failedFunctors.length ∧
    c.regs.nIdle ≤ n ∧ c.regs.nFailed ≤ n ∧
    c.regs.idleDevices.Nodup ∧
    (∀ d, d ∈ c.regs.idleDevices → d ∉ runningDevices c) := by
  obtain ⟨h1, h2, h3, h4⟩ := reach_registry_inv h
  have hcard1 := congrArg Multiset.card h1
  have hcard2 := congrArg Multiset.card h2
  simp only [Multiset.card_add, Multiset.coe_card, List.length_range]
    at hcard1 hcard2
  have hnd : ((runningDevices c : Multiset Nat)
      + (c.regs.idleDevices : Multiset Nat)
      + (c.regs.failedDevices : Multiset Nat)).Nodup := by
    rw [h1]
    exact Multiset.coe_nodup.mpr (List.nodup_range n)
  rw [Multiset.nodup_add] at hnd
  have hnd2 := hnd.1
  rw [Multiset.nodup_add] at hnd2
  refine ⟨h3, h4, by omega, by omega, Multiset.coe_nodup.mp hnd2.2.1, ?_⟩
  intro d hd hr
  exact (Multiset.disjoint_left.mp hnd2.2.2) (Multiset.mem_coe.mpr hr)
    (Multiset.mem_coe.mpr hd)

/-- Witness for C4 at the reachable configuration obtained by one
successful step of thread 0 from the initial two-device configuration. -/
theorem c4_registry_consistency_witness :
    (stepThread true 0 (initConfig 2)).regs.nIdle
        = (stepThread true 0 (initConfig 2)).regs.idleDevices.length ∧
    (stepThread true 0 (initConfig 2)).regs.nFailed
        = (stepThread true 0 (initConfig 2)).regs.failedFunctors.length ∧
    (stepThread true 0 (initConfig 2)).regs.nIdle ≤ 2 ∧
    (stepThread true 0 (initConfig 2)).regs.nFailed ≤ 2 ∧
    (stepThread true 0 (initConfig 2)).regs.idleDevices.Nodup ∧
    (∀ d, d ∈ (stepThread true 0 (initConfig 2)).regs.idleDevices →
      d ∉ runningDevices (stepThread true 0 (initConfig 2))) :=
  c4_registry_consistency (Reach.step true 0 Reach.init)

/-- C6: a non-returning auxiliary monitor never prevents `Run` from
returning or alters its status — the status component of the joined run
is the main-work status for every monitor behaviour, and a monitor that
has not returned when the main controller threads are all terminal is
forcibly killed rather than awaited. -/
theorem c6_aux_monitor_killed (ok : Nat → Nat → Bool) (n : Nat)
    (auxReturned : Bool) :
    (RunWithAux ok n auxReturned).1 = RunModel ok n ∧
    (∀ b : Bool, (RunWithAux ok n auxReturned).1 = (RunWithAux ok n b).1) ∧
    (RunWithAux ok n false).2 = AuxOutcome.killed := by
  refine ⟨rfl, fun b => rfl, ?_⟩
  simp [RunWithAux, joinAux]

/-- C7: the orchestrator's success path performs the phases in order —
`BindData`, `AllocateResources` (Init), `GenerateParameterList`
(Partitioned), dispatch of the workers and monitor, join of all
controller threads, `PostRun` — with no phase skipped or reordered, and
then returns the aggregate status of the run. -/
theorem c7_phase_order (ok : Nat → Nat → Bool) (n : Nat) :
    (RunOrchestrated ok n).1 =
      [PhaseEvent.bindData, PhaseEvent.allocateResources,
       PhaseEvent.generateParameterList, PhaseEvent.dispatch,
       PhaseEvent.joinThreads, PhaseEvent.postRun] ∧
    (RunOrchestrated ok n).2 = RunModel ok n :=
  ⟨rfl, rfl⟩

/-- C8: `FailOnFunctor(functorIndex)` returns true exactly when the most
recent operation on the given functor failed, and returns true for every
out-of-range functor index. -/
theorem c8_failOnFunctor (e : FunctorErrors) (i : Nat) :
    (e.nFunctors ≤ i → FailOnFunctor e i = true) ∧
    (i < e.nFunctors → FailOnFunctor e i = e.opFailed i) := by
  constructor
  · intro h
    simp [FailOnFunctor, h]
  · intro h
    simp [FailOnFunctor, Nat.not_le.mpr h]

/-- Witness for C8: two functors, of which functor 0 failed; index 5 is
out of range and reported failed, index 1 is in range and reported by its
own flag. -/
theorem c8_failOnFunctor_witness :
    FailOnFunctor { nFunctors := 2, opFailed := fun j => j == 0 } 5 = true ∧
    FailOnFunctor { nFunctors := 2, opFailed := fun j => j == 0 } 1 = (1 == 0) :=
  ⟨(c8_failOnFunctor { nFunctors := 2, opFailed := fun j => j == 0 } 5).1
      (by decide),
   (c8_failOnFunctor { nFunctors := 2, opFailed := fun j => j == 0 } 1).2
      (by decide)⟩

/-- C10: all remap bookkeeping state (`hRemapMutex`, `idleDevices`,
`failedFunctors`, `nFailed`, `nIdle`) and the thread entry points
`AsyncFunctor` and `AsyncAuxFunctor` are private members of
`AbstractFunctor`, so a derived device implementation can neither observe
nor mutate the remap registries. -/
theorem c10_remap_state_private :
    (memberIsPrivate "hRemapMutex" && memberIsPrivate "idleDevices" &&
     memberIsPrivate "failedFunctors" && memberIsPrivate "nFailed" &&
     memberIsPrivate "nIdle" && memberIsPrivate "AsyncFunctor" &&
     memberIsPrivate "AsyncAuxFunctor") = true := by decide

end ElectroMag
